import Mathlib

/-!
Shallow embedding of `src/app/page.tsx` (chat page of the mychatbot
repository): the conversation store, the request composer, the streaming
response decoder and the submission handler `handleSendMessage`, together
with the PDF page-extraction loop of `parsePdf`.

JavaScript string builtins used by the source (`split('\n')`,
`substring(6)`, `trim()`, `startsWith`) are embedded as structural
functions over `List Char`; external collaborators (`JSON.parse` plus the
optional-chaining path `candidates[0].content.parts[0].text`, the fetch
response, pdf.js page objects) are parameters of the embedded functions.
-/

namespace Chatbot

/-- Role of a UI message (`interface Message` in the source). -/
inductive Role where
  | user
  | assistant
  deriving DecidableEq, Repr

/-- A UI message: `interface Message { id; role; content }`.  The source
uses string ids produced by `crypto.randomUUID()`; the embedding models
ids as naturals drawn from a freshness counter. -/
structure Message where
  id : Nat
  role : Role
  content : String
  deriving DecidableEq, Repr

/-- Wire role of an API history entry (`"user" | "model"`). -/
inductive WireRole where
  | user
  | model
  deriving DecidableEq, Repr

/-- One API history entry: `interface ApiContent { role; parts: [ { text } ] }`.
`parts` is the list of the `text` fields. -/
structure ApiContent where
  role : WireRole
  parts : List String
  deriving DecidableEq, Repr

/-! ### JavaScript string builtins -/

/-- JS `String.prototype.split` with a one-character separator, over the
character list.  `[]` splits to `[[]]`, matching JS `"".split(c) = [""]`. -/
def splitChars (sep : Char) : List Char → List (List Char)
  | [] => [[]]
  | c :: cs =>
    match splitChars sep cs with
    | [] => [[]]
    | h :: t => if c = sep then [] :: h :: t else (c :: h) :: t

/-- JS `chunk.split('\n')` on strings. -/
def jsSplitNl (s : String) : List String :=
  (splitChars (Char.ofNat 10) s.data).map String.mk

/-- JS whitespace test for the characters relevant to `trim()`. -/
def isWs (c : Char) : Bool :=
  c = ' ' || c = Char.ofNat 10 || c = Char.ofNat 9 || c = Char.ofNat 13

/-- JS `String.prototype.trim`: strip whitespace from both ends. -/
def jsTrim (s : String) : String :=
  String.mk (((s.data.dropWhile isWs).reverse.dropWhile isWs).reverse)

/-- JS `line.startsWith('data: ')`. -/
def startsWithData (line : String) : Bool :=
  "data: ".data.isPrefixOf line.data

/-- JS `line.substring 6`. -/
def jsSubstringFrom (n : Nat) (line : String) : String :=
  String.mk (line.data.drop n)

/-! ### Streaming response decoder -/

/-- The result of `JSON.parse(jsonStr)` followed by the optional-chaining
read `parsed.candidates?.[0]?.content?.parts?.[0]?.text`, both external to
the embedded code: `none` models a `JSON.parse` exception, `some none` a
record without a text at that path, `some (some t)` a record carrying the
string `t` there. -/
def JsonTextPath : Type := String → Option (Option String)

/-- Decoder state threaded through the read loop of `handleSendMessage`:
the messages list, the id counter, and the two loop-local variables
`aiResponseContent` and `assistantMessageId`. -/
structure DecodeState where
  messages : List Message
  nextId : Nat
  aiResponseContent : String
  assistantMessageId : Option Nat
  deriving DecidableEq, Repr

/-- The fragment a single line yields, if any: the line must start with
`"data: "`, its trimmed remainder must be nonempty (JS truthiness of
`jsonStr`), the JSON must parse, the text path must be present, and the
text must be nonempty (JS truthiness of `textPart`). -/
def fragmentOfLine (parse : JsonTextPath) (line : String) : Option String :=
  if startsWithData line then
    let jsonStr := jsTrim (jsSubstringFrom 6 line)
    if jsonStr = "" then none
    else
      match parse jsonStr with
      | none => none
      | some none => none
      | some (some textPart) => if textPart = "" then none else some textPart
  else none

/-- Processing of one line of a chunk (the body of `for (const line of
lines)`): on a fragment, accumulate it and either append a fresh assistant
message (first fragment) or update the active assistant message in place
(`prev.map(...)`). -/
def processLine (parse : JsonTextPath) (ds : DecodeState) (line : String) :
    DecodeState :=
  match fragmentOfLine parse line with
  | none => ds
  | some textPart =>
    let acc := ds.aiResponseContent ++ textPart
    match ds.assistantMessageId with
    | none =>
      { ds with
        aiResponseContent := acc
        assistantMessageId := some ds.nextId
        nextId := ds.nextId + 1
        messages := ds.messages ++ [⟨ds.nextId, Role.assistant, acc⟩] }
    | some mid =>
      { ds with
        aiResponseContent := acc
        messages := ds.messages.map fun m =>
          if m.id = mid then { m with content := acc } else m }

/-- Processing of one decoded chunk: `chunk.split('\n')`, then the line
loop.  No partial trailing line is carried over to the next chunk. -/
def processChunk (parse : JsonTextPath) (ds : DecodeState) (chunk : String) :
    DecodeState :=
  (jsSplitNl chunk).foldl (processLine parse) ds

/-- The whole `while (true) { ... reader.read() ... }` loop over the
stream's decoded chunks. -/
def runStream (parse : JsonTextPath) (ds : DecodeState) (chunks : List String) :
    DecodeState :=
  chunks.foldl (processChunk parse) ds

/-- Folding the line loop over an explicit list of lines; `processChunk`
is this applied to the chunk's split. -/
def runLines (parse : JsonTextPath) (ds : DecodeState) (lines : List String) :
    DecodeState :=
  lines.foldl (processLine parse) ds

/-! ### PDF page-extraction loop (`parsePdf`, lines 104-116) -/

/-- The already-opened pdf.js document: `numPages`, and for each 1-based
page index the outcome of `getPage(i)` + `getTextContent()` — the list of
the items' `str` fields, or the rejection message if either await throws. -/
structure PdfDoc where
  numPages : Nat
  pages : Nat → Except String (List String)

/-- JS `Array.prototype.join`. -/
def jsJoin (sep : String) : List String → String
  | [] => ""
  | [s] => s
  | s :: rest => s ++ sep ++ jsJoin sep rest

/-- The page loop `for (let i = 1; i <= pdf.numPages; i++)` carrying the
`fullText` accumulator; a rejection on any page escapes to the `catch`
and rejects the whole promise. -/
def parsePdfGo (pdf : PdfDoc) (fullText : String) : List Nat → Except String String
  | [] => Except.ok fullText
  | i :: rest =>
    match pdf.pages i with
    | Except.error e => Except.error e
    | Except.ok items => parsePdfGo pdf (fullText ++ jsJoin " " items ++ "\n") rest

/-- `parsePdf` on an opened document: pages 1..numPages in order. -/
def parsePdf (pdf : PdfDoc) : Except String String :=
  parsePdfGo pdf "" (List.range' 1 pdf.numPages)

/-! ### Request composer and submission handler (`handleSendMessage`) -/

/-- The attached file, as the handler sees it (only its name is read). -/
structure FileAttachment where
  name : String
  deriving DecidableEq, Repr

/-- The fetch response: `ok` and `status`, the decoded
`errorBody?.error?.message` path of `response.json()` (read only on
failure), whether `response.body` is present, and the decoded text chunks
the reader delivers. -/
structure TransportResponse where
  ok : Bool
  status : Nat
  errMessage : Option String
  hasBody : Bool
  chunks : List String
  deriving Repr

/-- Component state touched by `handleSendMessage`: the `messages`,
`input`, `file`, `isLoading` and `error` React states, plus the freshness
counter standing for `crypto.randomUUID()`. -/
structure AppState where
  messages : List Message
  input : String
  file : Option FileAttachment
  isLoading : Bool
  error : Option String
  nextId : Nat
  deriving Repr

/-- JS string interpolation of `file?.name`. -/
def jsFileName (file : Option FileAttachment) : String :=
  match file with
  | some f => f.name
  | none => "undefined"

/-- `content: input.trim() || File uploaded: ...` (line 152): the typed
text, or the filename marker when the trimmed text is empty. -/
def userContentOf (input : String) (file : Option FileAttachment) : String :=
  if jsTrim input = "" then "File uploaded: " ++ jsFileName file
  else jsTrim input

/-- Lines 160-163: the API request text is the trimmed input, extended
with a delimited section holding the parsed PDF text when it is
nonempty. -/
def apiRequestTextOf (input : String) (file : Option FileAttachment)
    (pdfText : String) : String :=
  if pdfText = "" then jsTrim input
  else jsTrim input ++ "\n\n--- Content from " ++ jsFileName file ++ " ---\n"
    ++ pdfText

/-- Lines 170-179: the `chatHistory` payload — every prior message with
`assistant` mapped to wire role `model` and anything else to `user`, the
content as the sole part, then one final `user` entry with the request
text. -/
def chatHistory (messages : List Message) (apiRequestText : String) :
    List ApiContent :=
  messages.map (fun msg =>
    ⟨if msg.role = Role.assistant then WireRole.model else WireRole.user,
      [msg.content]⟩)
    ++ [⟨WireRole.user, [apiRequestText]⟩]

/-- The `if (file) { pdfText = await parsePdf(file) ... }` step: with no
file attached `pdfText` stays `""`; with a file, the outcome of the
`parsePdf` promise decides. -/
def pdfStep (file : Option FileAttachment)
    (pdfResult : Except String String) : Except String String :=
  match file with
  | some _ => pdfResult
  | none => Except.ok ""

/-- Line 193: the thrown message for a bad status or absent body. -/
def apiErrorMessage (resp : TransportResponse) : String :=
  "API error: " ++ toString resp.status ++ " - "
    ++ resp.errMessage.getD "Unknown error"

/-- `handleSendMessage` (lines 124-241).  `pdfResult` is the outcome of
the `parsePdf` promise were it awaited, `resp` the fetch response, and
`parse` the JSON collaborator; stream-read rejections are not modelled
(the chunk list is the full delivered stream). -/
def handleSendMessage (pdfResult : Except String String)
    (resp : TransportResponse) (parse : JsonTextPath) (st : AppState) :
    AppState :=
  if (jsTrim st.input = "" ∧ st.file = none) ∨ st.isLoading = true then st
  else
    let st1 : AppState := { st with isLoading := true, error := none }
    match pdfStep st1.file pdfResult with
    | Except.error msg => { st1 with error := some msg, isLoading := false }
    | Except.ok pdfText =>
      let userMessage : Message :=
        ⟨st1.nextId, Role.user, userContentOf st1.input st1.file⟩
      let st2 : AppState :=
        { st1 with messages := st1.messages ++ [userMessage],
                   nextId := st1.nextId + 1 }
      let _payload := chatHistory st1.messages
        (apiRequestTextOf st1.input st1.file pdfText)
      let st3 : AppState := { st2 with input := "", file := none }
      if resp.ok = false ∨ resp.hasBody = false then
        let errorMessage := apiErrorMessage resp
        { st3 with
          error := some errorMessage
          messages := st3.messages
            ++ [⟨st3.nextId, Role.assistant,
                  "Sorry, something went wrong: " ++ errorMessage⟩]
          nextId := st3.nextId + 1
          isLoading := false }
      else
        let ds := runStream parse ⟨st3.messages, st3.nextId, "", none⟩
          resp.chunks
        { st3 with messages := ds.messages, nextId := ds.nextId,
                   isLoading := false }

/-- The payload `handleSendMessage` dispatches to the transport, `none`
when the call aborts before the fetch (guard rejection or extraction
failure) — a projection of the same path of lines 124-188. -/
def dispatchedPayload (pdfResult : Except String String) (st : AppState) :
    Option (List ApiContent) :=
  if (jsTrim st.input = "" ∧ st.file = none) ∨ st.isLoading = true then none
  else
    match pdfStep st.file pdfResult with
    | Except.error _ => none
    | Except.ok pdfText =>
      some (chatHistory st.messages
        (apiRequestTextOf st.input st.file pdfText))

/-- Concatenation of a fragment list, in delivery order. -/
def strConcat : List String → String
  | [] => ""
  | s :: rest => s ++ strConcat rest

/-- Relation between a record body and the fragment it delivers. -/
def DeliversFragment (parse : JsonTextPath) (s f : String) : Prop :=
  (∀ c ∈ s.data, c ≠ Char.ofNat 10) ∧ jsTrim s ≠ "" ∧
    parse (jsTrim s) = some (some f) ∧ f ≠ ""

/-- Invariant carried through the decoder: the pre-stream messages stay
an unchanged prefix, the id counter never goes below `n`, and any active
assistant id is at least `n`. -/
def StorePrefixInv (base : List Message) (n : Nat) (ds : DecodeState) : Prop :=
  (∃ rest, ds.messages = base ++ rest) ∧ n ≤ ds.nextId
    ∧ ∀ mid, ds.assistantMessageId = some mid → n ≤ mid

/-- A concrete JSON collaborator for witnesses: two record bodies carrying
the fragments of the spec's example. -/
def parseDemo : JsonTextPath := fun s =>
  if s = "r1" then some (some "Hel")
  else if s = "r2" then some (some "lo")
  else none

/-- The JSON body of the spec's example record. -/
def fullRecordBody : String :=
  "\x7b\"candidates\":[\x7b\"content\":\x7b\"parts\":[\x7b\"text\":\"Hello\"\x7d]\x7d\x7d]\x7d"

/-- JSON collaborator for that record: the complete body parses and
carries the text "Hello"; every proper part of it is invalid JSON. -/
def parseHello : JsonTextPath := fun s =>
  if s = fullRecordBody then some (some "Hello") else none

/-- A two-page document whose pages all extract. -/
def pdfDemoOk : PdfDoc :=
  ⟨2, fun i => if i = 1 then Except.ok ["a", "b"] else Except.ok ["c"]⟩

/-- A two-page document whose second page fails to extract. -/
def pdfDemoBad : PdfDoc :=
  ⟨2, fun i => if i = 1 then Except.ok ["a"] else Except.error "boom"⟩

/-! ### Theorems -/

theorem splitChars_ne_nil (sep : Char) (l : List Char) : splitChars sep l ≠ [] := by
  cases l with
  | nil => simp [splitChars]
  | cons c cs =>
    simp only [splitChars]
    cases splitChars sep cs with
    | nil => simp
    | cons h t =>
      by_cases hc : c = sep <;> simp [hc]

theorem splitChars_append_sep (sep : Char) (a rest : List Char)
    (h : ∀ c ∈ a, c ≠ sep) :
    splitChars sep (a ++ sep :: rest) = a :: splitChars sep rest := by
  induction a with
  | nil =>
    rw [List.nil_append, splitChars]
    cases hr : splitChars sep rest with
    | nil => exact absurd hr (splitChars_ne_nil sep rest)
    | cons x t => simp
  | cons c a ih =>
    have hc : c ≠ sep := h c (by simp)
    have ih2 := ih (fun x hx => h x (List.mem_cons_of_mem _ hx))
    rw [List.cons_append, splitChars, ih2]
    simp [hc]

theorem isPrefixOf_append_self (l t : List Char) :
    l.isPrefixOf (l ++ t) = true := by
  induction l with
  | nil => simp
  | cons c cs ih => simp [ih]

theorem startsWithData_append (s : String) :
    startsWithData ("data: " ++ s) = true := by
  simp only [startsWithData, String.data_append]
  exact isPrefixOf_append_self _ _

theorem jsSubstringFrom_data (s : String) :
    jsSubstringFrom 6 ("data: " ++ s) = s := by
  simp only [jsSubstringFrom, String.data_append]
  rw [List.drop_left' (by rfl)]

theorem fragmentOfLine_data_none (parse : JsonTextPath) (s : String)
    (h : parse (jsTrim s) = none) :
    fragmentOfLine parse ("data: " ++ s) = none := by
  rw [fragmentOfLine, startsWithData_append, jsSubstringFrom_data]
  by_cases he : jsTrim s = "" <;> simp [he, h]

theorem fragmentOfLine_data_some (parse : JsonTextPath) (s f : String)
    (h1 : jsTrim s ≠ "") (h2 : parse (jsTrim s) = some (some f)) (h3 : f ≠ "") :
    fragmentOfLine parse ("data: " ++ s) = some f := by
  rw [fragmentOfLine, startsWithData_append, jsSubstringFrom_data]
  simp [h1, h2, h3]

theorem processLine_of_none (parse : JsonTextPath) (ds : DecodeState)
    (line : String) (h : fragmentOfLine parse line = none) :
    processLine parse ds line = ds := by
  rw [processLine, h]

theorem processLine_empty (parse : JsonTextPath) (ds : DecodeState) :
    processLine parse ds "" = ds :=
  processLine_of_none parse ds "" rfl

theorem processChunk_record (parse : JsonTextPath) (ds : DecodeState)
    (s : String) (hnl : ∀ c ∈ s.data, c ≠ Char.ofNat 10) :
    processChunk parse ds ("data: " ++ s ++ "\n") = processLine parse ds ("data: " ++ s) := by
  have hpre : ∀ c ∈ "data: ".data, c ≠ Char.ofNat 10 := by decide
  have hall : ∀ c ∈ ("data: " ++ s).data, c ≠ Char.ofNat 10 := by
    simp only [String.data_append, List.mem_append]
    rintro c (hc | hc)
    · exact hpre c hc
    · exact hnl c hc
  have hsplit : jsSplitNl ("data: " ++ s ++ "\n") = ["data: " ++ s, ""] := by
    have hdata : ("data: " ++ s ++ "\n").data
        = ("data: " ++ s).data ++ Char.ofNat 10 :: [] := by
      rw [String.data_append]
    rw [jsSplitNl, hdata, splitChars_append_sep _ _ _ hall]
    rfl
  rw [processChunk, hsplit]
  simp only [List.foldl_cons, List.foldl_nil]
  rw [processLine_empty]

theorem foldl_processLine_of_none (parse : JsonTextPath) (lines : List String) :
    ∀ ds : DecodeState, (∀ l ∈ lines, fragmentOfLine parse l = none) →
      lines.foldl (processLine parse) ds = ds := by
  induction lines with
  | nil => intro ds _; rfl
  | cons x t ih =>
    intro ds h
    rw [List.foldl_cons, processLine_of_none _ _ _ (h x (by simp))]
    exact ih ds (fun l hl => h l (List.mem_cons_of_mem _ hl))

theorem processChunk_of_no_fragment (parse : JsonTextPath) (ds : DecodeState)
    (chunk : String)
    (h : ∀ l ∈ jsSplitNl chunk, fragmentOfLine parse l = none) :
    processChunk parse ds chunk = ds :=
  foldl_processLine_of_none parse (jsSplitNl chunk) ds h

theorem runStream_of_no_fragment (parse : JsonTextPath) (chunks : List String) :
    ∀ ds : DecodeState,
      (∀ c ∈ chunks, ∀ l ∈ jsSplitNl c, fragmentOfLine parse l = none) →
      runStream parse ds chunks = ds := by
  induction chunks with
  | nil => intro ds _; rfl
  | cons x t ih =>
    intro ds h
    rw [runStream, List.foldl_cons,
      processChunk_of_no_fragment parse ds x (h x (by simp))]
    exact ih ds (fun c hc => h c (List.mem_cons_of_mem _ hc))

/-- One in-place update step: with the active assistant turn last in the
store and its id fresh for the prefix, a fragment chunk rewrites only that
turn's content. -/
theorem processChunk_update (parse : JsonTextPath) (msgs : List Message)
    (n : Nat) (acc s f : String)
    (hfresh : ∀ m ∈ msgs, m.id ≠ n)
    (hnl : ∀ c ∈ s.data, c ≠ Char.ofNat 10)
    (h1 : jsTrim s ≠ "") (h2 : parse (jsTrim s) = some (some f)) (h3 : f ≠ "") :
    processChunk parse ⟨msgs ++ [⟨n, Role.assistant, acc⟩], n + 1, acc, some n⟩
        ("data: " ++ s ++ "\n")
      = ⟨msgs ++ [⟨n, Role.assistant, acc ++ f⟩], n + 1, acc ++ f, some n⟩ := by
  rw [processChunk_record parse _ s hnl, processLine,
    fragmentOfLine_data_some parse s f h1 h2 h3]
  simp only [List.map_append]
  rw [List.map_congr_left (g := id) (fun m hm => by simp [hfresh m hm]),
    List.map_id]
  simp

/-- First-fragment step: a fragment chunk arriving with no active
assistant turn appends a fresh assistant turn holding the fragment. -/
theorem processChunk_create (parse : JsonTextPath) (msgs : List Message)
    (n : Nat) (s f : String)
    (hnl : ∀ c ∈ s.data, c ≠ Char.ofNat 10)
    (h1 : jsTrim s ≠ "") (h2 : parse (jsTrim s) = some (some f)) (h3 : f ≠ "") :
    processChunk parse ⟨msgs, n, "", none⟩ ("data: " ++ s ++ "\n")
      = ⟨msgs ++ [⟨n, Role.assistant, f⟩], n + 1, f, some n⟩ := by
  rw [processChunk_record parse _ s hnl, processLine,
    fragmentOfLine_data_some parse s f h1 h2 h3]
  simp

theorem runStream_update (parse : JsonTextPath) {ss fs : List String}
    (hssfs : List.Forall₂ (DeliversFragment parse) ss fs) :
    ∀ (msgs : List Message) (n : Nat) (acc : String),
      (∀ m ∈ msgs, m.id ≠ n) →
      runStream parse ⟨msgs ++ [⟨n, Role.assistant, acc⟩], n + 1, acc, some n⟩
          (ss.map fun s => "data: " ++ s ++ "\n")
        = ⟨msgs ++ [⟨n, Role.assistant, acc ++ strConcat fs⟩], n + 1,
            acc ++ strConcat fs, some n⟩ := by
  induction hssfs with
  | nil =>
    intro msgs n acc hfresh
    simp [runStream, strConcat]
  | cons hsf hrest ih =>
    intro msgs n acc hfresh
    rename_i s f ss fs
    obtain ⟨hnl, h1, h2, h3⟩ := hsf
    rw [List.map_cons, runStream, List.foldl_cons,
      processChunk_update parse msgs n acc s f hfresh hnl h1 h2 h3]
    have := ih msgs n (acc ++ f) hfresh
    rw [runStream] at this
    rw [this, strConcat, ← String.append_assoc]

/-- C1: a stream delivering nonempty fragments f1..fn as data records
creates exactly one assistant turn, whose content is the concatenation of
the fragments in delivery order; every later fragment is an in-place
update keeping the turn's id and position. -/
theorem stream_builds_single_assistant_turn (parse : JsonTextPath)
    (msgs : List Message) (n : Nat) (ss fs : List String)
    (hfresh : ∀ m ∈ msgs, m.id ≠ n)
    (hssfs : List.Forall₂ (DeliversFragment parse) ss fs)
    (hne : ss ≠ []) :
    runStream parse ⟨msgs, n, "", none⟩ (ss.map fun s => "data: " ++ s ++ "\n")
      = ⟨msgs ++ [⟨n, Role.assistant, strConcat fs⟩], n + 1, strConcat fs,
          some n⟩ := by
  cases hssfs with
  | nil => exact absurd rfl hne
  | cons hsf hrest =>
    rename_i s f ss' fs'
    obtain ⟨hnl, h1, h2, h3⟩ := hsf
    rw [List.map_cons, runStream, List.foldl_cons,
      processChunk_create parse msgs n s f hnl h1 h2 h3]
    have hupd := runStream_update parse hrest msgs n f hfresh
    rw [runStream] at hupd
    rw [hupd, strConcat]

theorem stream_builds_single_assistant_turn_witness :
    runStream parseDemo ⟨[⟨1, Role.user, "hi"⟩], 2, "", none⟩
        ["data: r1\n", "data: r2\n"]
      = ⟨[⟨1, Role.user, "hi"⟩, ⟨2, Role.assistant, "Hello"⟩], 3, "Hello",
          some 2⟩ := by
  have h := stream_builds_single_assistant_turn parseDemo
    [⟨1, Role.user, "hi"⟩] 2 ["r1", "r2"] ["Hel", "lo"] (by decide)
    (List.Forall₂.cons ⟨by decide, by decide, by decide, by decide⟩
      (List.Forall₂.cons ⟨by decide, by decide, by decide, by decide⟩
        List.Forall₂.nil))
    (by decide)
  exact h

/-- C3: the composed payload maps each prior turn in order (assistant to
wire role model, user to user, content verbatim) and ends with exactly one
user entry carrying the new text; the spec's concrete example holds. -/
theorem chatHistory_maps_roles_and_appends_user :
    (∀ (msgs : List Message) (t : String),
      (chatHistory msgs t).length = msgs.length + 1
      ∧ (∀ (i : Nat) (m : Message), msgs[i]? = some m →
          (chatHistory msgs t)[i]? = some
            ⟨(match m.role with
               | Role.assistant => WireRole.model
               | Role.user => WireRole.user), [m.content]⟩)
      ∧ (chatHistory msgs t)[msgs.length]? = some ⟨WireRole.user, [t]⟩)
    ∧ chatHistory [⟨1, Role.user, "hi"⟩] "2+2?"
        = [⟨WireRole.user, ["hi"]⟩, ⟨WireRole.user, ["2+2?"]⟩] := by
  constructor
  · intro msgs t
    refine ⟨by simp [chatHistory], ?_, ?_⟩
    · intro i m hm
      have hi : i < msgs.length := by
        rcases List.getElem?_eq_some.mp hm with ⟨hi, -⟩
        exact hi
      rw [chatHistory, List.getElem?_append_left (by simpa using hi),
        List.getElem?_map, hm]
      cases m with
      | mk mi mr mc => cases mr <;> simp
    · rw [chatHistory, List.getElem?_append_right (by simp)]
      simp
  · decide

theorem chatHistory_maps_roles_and_appends_user_witness :
    ([⟨1, Role.user, "hi"⟩] : List Message)[0]? = some ⟨1, Role.user, "hi"⟩
    ∧ (chatHistory [⟨1, Role.user, "hi"⟩] "2+2?")[0]?
        = some ⟨WireRole.user, ["hi"]⟩ :=
  ⟨by decide,
    (chatHistory_maps_roles_and_appends_user.1 [⟨1, Role.user, "hi"⟩]
      "2+2?").2.1 0 ⟨1, Role.user, "hi"⟩ (by decide)⟩

/-- C8: a submit call made while a submission is in flight is rejected
and changes nothing. -/
theorem submit_while_loading_is_noop (pdfResult : Except String String)
    (resp : TransportResponse) (parse : JsonTextPath) (st : AppState)
    (h : st.isLoading = true) :
    handleSendMessage pdfResult resp parse st = st := by
  rw [handleSendMessage, if_pos (Or.inr h)]

theorem submit_while_loading_is_noop_witness :
    handleSendMessage (Except.ok "") ⟨true, 200, none, true, []⟩ parseDemo
        ⟨[⟨1, Role.user, "hi"⟩], "again", none, true, none, 2⟩
      = ⟨[⟨1, Role.user, "hi"⟩], "again", none, true, none, 2⟩ :=
  submit_while_loading_is_noop (Except.ok "") ⟨true, 200, none, true, []⟩
    parseDemo ⟨[⟨1, Role.user, "hi"⟩], "again", none, true, none, 2⟩ rfl

/-- C6: a failed document extraction aborts the submission before any
turn is created: the store is untouched, the error is surfaced, and the
session returns to idle. -/
theorem extraction_failure_leaves_store_untouched
    (pdfResult : Except String String) (resp : TransportResponse)
    (parse : JsonTextPath) (st : AppState) (f : FileAttachment) (msg : String)
    (hload : st.isLoading = false) (hfile : st.file = some f)
    (hpdf : pdfResult = Except.error msg) :
    handleSendMessage pdfResult resp parse st
      = { st with error := some msg, isLoading := false } := by
  rw [handleSendMessage, if_neg ?hg]
  case hg =>
    rintro (⟨-, hn⟩ | hl)
    · rw [hfile] at hn; cases hn
    · rw [hload] at hl; cases hl
  simp [pdfStep, hfile, hpdf]

theorem extraction_failure_leaves_store_untouched_witness :
    handleSendMessage (Except.error "Failed to read file.")
        ⟨true, 200, none, true, []⟩ parseDemo
        ⟨[⟨1, Role.user, "hi"⟩], "", some ⟨"a.pdf"⟩, false, none, 2⟩
      = ⟨[⟨1, Role.user, "hi"⟩], "", some ⟨"a.pdf"⟩, false,
          some "Failed to read file.", 2⟩ :=
  extraction_failure_leaves_store_untouched (Except.error "Failed to read file.")
    ⟨true, 200, none, true, []⟩ parseDemo
    ⟨[⟨1, Role.user, "hi"⟩], "", some ⟨"a.pdf"⟩, false, none, 2⟩
    ⟨"a.pdf"⟩ "Failed to read file." rfl rfl rfl

theorem handleSendMessage_transport_error
    (pdfResult : Except String String) (resp : TransportResponse)
    (parse : JsonTextPath) (st : AppState) (pdfText : String)
    (hload : st.isLoading = false)
    (hval : ¬(jsTrim st.input = "" ∧ st.file = none))
    (hpdf : pdfStep st.file pdfResult = Except.ok pdfText)
    (hresp : resp.ok = false ∨ resp.hasBody = false) :
    handleSendMessage pdfResult resp parse st
      = { st with
          messages := st.messages
            ++ [⟨st.nextId, Role.user, userContentOf st.input st.file⟩,
                ⟨st.nextId + 1, Role.assistant,
                  "Sorry, something went wrong: " ++ apiErrorMessage resp⟩],
          input := "", file := none,
          error := some (apiErrorMessage resp),
          isLoading := false,
          nextId := st.nextId + 2 } := by
  rw [handleSendMessage, if_neg ?hg]
  case hg =>
    rintro (hv | hl)
    · exact hval hv
    · rw [hload] at hl; cases hl
  simp only [hpdf]
  rw [if_pos hresp]
  simp [List.append_assoc]

/-- C4: a non-success status or absent body makes the handler throw the
API error, append exactly one terminal assistant turn describing it after
the already-appended user turn (no rollback), surface the error, and
return to idle. -/
theorem transport_failure_appends_error_turn
    (pdfResult : Except String String) (resp : TransportResponse)
    (parse : JsonTextPath) (st : AppState) (pdfText : String)
    (hload : st.isLoading = false)
    (hval : ¬(jsTrim st.input = "" ∧ st.file = none))
    (hpdf : pdfStep st.file pdfResult = Except.ok pdfText)
    (hresp : resp.ok = false ∨ resp.hasBody = false) :
    handleSendMessage pdfResult resp parse st
      = { st with
          messages := st.messages
            ++ [⟨st.nextId, Role.user, userContentOf st.input st.file⟩,
                ⟨st.nextId + 1, Role.assistant,
                  "Sorry, something went wrong: " ++ apiErrorMessage resp⟩],
          input := "", file := none,
          error := some (apiErrorMessage resp),
          isLoading := false,
          nextId := st.nextId + 2 } :=
  handleSendMessage_transport_error pdfResult resp parse st pdfText hload hval
    hpdf hresp

theorem transport_failure_appends_error_turn_witness :
    handleSendMessage (Except.ok "") ⟨false, 500, some "Internal error", true, []⟩
        parseDemo ⟨[], "hey", none, false, none, 5⟩
      = ⟨[⟨5, Role.user, "hey"⟩,
          ⟨6, Role.assistant,
            "Sorry, something went wrong: API error: 500 - Internal error"⟩],
          "", none, false, some "API error: 500 - Internal error", 7⟩ :=
  transport_failure_appends_error_turn (Except.ok "")
    ⟨false, 500, some "Internal error", true, []⟩ parseDemo
    ⟨[], "hey", none, false, none, 5⟩ "" rfl (by decide) rfl (Or.inl rfl)

/-- C5: a record whose JSON body fails to parse is skipped and the rest
of the stream is processed exactly as if the record were absent. -/
theorem malformed_record_skipped (parse : JsonTextPath) (ds : DecodeState)
    (pre post : List String) (bad : String)
    (hnl : ∀ c ∈ bad.data, c ≠ Char.ofNat 10)
    (hbad : parse (jsTrim bad) = none) :
    runStream parse ds (pre ++ ("data: " ++ bad ++ "\n") :: post)
      = runStream parse ds (pre ++ post) := by
  rw [runStream, runStream, List.foldl_append, List.foldl_append,
    List.foldl_cons, processChunk_record parse _ bad hnl,
    processLine_of_none _ _ _ (fragmentOfLine_data_none parse bad hbad)]

theorem malformed_record_skipped_witness :
    runStream parseDemo ⟨[], 0, "", none⟩
        ["data: r1\n", "data: oops\n", "data: r2\n"]
      = runStream parseDemo ⟨[], 0, "", none⟩ ["data: r1\n", "data: r2\n"] :=
  malformed_record_skipped parseDemo ⟨[], 0, "", none⟩ ["data: r1\n"]
    ["data: r2\n"] "oops" (by decide) (by decide)

/-- C10: a stream in which no line yields a nonempty fragment leaves the
store exactly as it was after the user turn: no assistant turn and no
surfaced error. -/
theorem fragmentless_stream_adds_no_assistant_turn
    (pdfResult : Except String String) (resp : TransportResponse)
    (parse : JsonTextPath) (st : AppState) (pdfText : String)
    (hload : st.isLoading = false)
    (hval : ¬(jsTrim st.input = "" ∧ st.file = none))
    (hpdf : pdfStep st.file pdfResult = Except.ok pdfText)
    (hok : resp.ok = true) (hbody : resp.hasBody = true)
    (hfrag : ∀ c ∈ resp.chunks, ∀ l ∈ jsSplitNl c,
      fragmentOfLine parse l = none) :
    handleSendMessage pdfResult resp parse st
      = { st with
          messages := st.messages
            ++ [⟨st.nextId, Role.user, userContentOf st.input st.file⟩],
          input := "", file := none, error := none, isLoading := false,
          nextId := st.nextId + 1 } := by
  rw [handleSendMessage, if_neg ?hg]
  case hg =>
    rintro (hv | hl)
    · exact hval hv
    · rw [hload] at hl; cases hl
  simp only [hpdf]
  rw [if_neg (by simp [hok, hbody])]
  simp [fun ds => runStream_of_no_fragment parse resp.chunks ds hfrag]

theorem fragmentless_stream_adds_no_assistant_turn_witness :
    handleSendMessage (Except.ok "") ⟨true, 200, none, true, ["data: \n", "\n"]⟩
        parseDemo ⟨[], "hey", none, false, none, 5⟩
      = ⟨[⟨5, Role.user, "hey"⟩], "", none, false, none, 6⟩ :=
  fragmentless_stream_adds_no_assistant_turn (Except.ok "")
    ⟨true, 200, none, true, ["data: \n", "\n"]⟩ parseDemo
    ⟨[], "hey", none, false, none, 5⟩ "" rfl (by decide) rfl rfl rfl (by decide)

/-- C2: the decoder splits each chunk independently, so a record split
across two chunks is dropped (no assistant turn), while the same record
in one chunk yields the turn — the trailing partial line is not carried
over. -/
theorem split_record_lost_across_chunks :
    runStream parseHello ⟨[], 0, "", none⟩
        ["data: \x7b\"candidates\":[\x7b\"content\":\x7b\"parts\":[\x7b\"te",
         "xt\":\"Hello\"\x7d]\x7d\x7d]\x7d\n"]
      = ⟨[], 0, "", none⟩
    ∧ runStream parseHello ⟨[], 0, "", none⟩
        ["data: " ++ fullRecordBody ++ "\n"]
      = ⟨[⟨0, Role.assistant, "Hello"⟩], 1, "Hello", some 0⟩ := by
  constructor
  · decide
  · decide

theorem parsePdfGo_ok (pdf : PdfDoc) (L : Nat → List String) :
    ∀ (l : List Nat) (acc : String),
      (∀ i ∈ l, pdf.pages i = Except.ok (L i)) →
      parsePdfGo pdf acc l
        = Except.ok (acc ++ strConcat (l.map fun i => jsJoin " " (L i) ++ "\n")) := by
  intro l
  induction l with
  | nil => intro acc _; simp [parsePdfGo, strConcat]
  | cons i t ih =>
    intro acc h
    rw [parsePdfGo, h i (by simp)]
    show parsePdfGo pdf (acc ++ jsJoin " " (L i) ++ "\n") t = _
    rw [ih _ (fun j hj => h j (List.mem_cons_of_mem _ hj))]
    simp [strConcat, String.append_assoc]

theorem parsePdfGo_error (pdf : PdfDoc) (j : Nat) (e : String)
    (hj : pdf.pages j = Except.error e) :
    ∀ (l1 l2 : List Nat) (acc : String),
      (∀ i ∈ l1, ∃ ls, pdf.pages i = Except.ok ls) →
      parsePdfGo pdf acc (l1 ++ j :: l2) = Except.error e := by
  intro l1
  induction l1 with
  | nil => intro l2 acc _; rw [List.nil_append, parsePdfGo, hj]
  | cons i t ih =>
    intro l2 acc h
    obtain ⟨ls, hls⟩ := h i (by simp)
    rw [List.cons_append, parsePdfGo, hls]
    show parsePdfGo pdf (acc ++ jsJoin " " ls ++ "\n") (t ++ j :: l2) = _
    exact ih l2 _ (fun x hx => h x (List.mem_cons_of_mem _ hx))

/-- C7: with every page extracting, the result is the pages' texts in
ascending page order, each the space-join of its fragments plus a
newline; if any page fails (all earlier ones extracting), the whole
extraction fails with that error and no partial result. -/
theorem parsePdf_page_order_and_fail_fast :
    (∀ (pdf : PdfDoc) (L : Nat → List String),
      (∀ i ∈ List.range' 1 pdf.numPages, pdf.pages i = Except.ok (L i)) →
      parsePdf pdf = Except.ok
        (strConcat ((List.range' 1 pdf.numPages).map
          fun i => jsJoin " " (L i) ++ "\n")))
    ∧ (∀ (pdf : PdfDoc) (j : Nat) (e : String),
        1 ≤ j → j ≤ pdf.numPages → pdf.pages j = Except.error e →
        (∀ i, 1 ≤ i → i < j → ∃ ls, pdf.pages i = Except.ok ls) →
        parsePdf pdf = Except.error e) := by
  constructor
  · intro pdf L h
    rw [parsePdf, parsePdfGo_ok pdf L _ "" h]
    simp
  · intro pdf j e h1 hn hj hok
    have e1 : pdf.numPages - (j - 1) + (j - 1) = pdf.numPages := by omega
    have e2 : pdf.numPages - (j - 1) = (pdf.numPages - j) + 1 := by omega
    have e3 : 1 + (j - 1) = j := by omega
    have hdecomp : List.range' 1 pdf.numPages
        = List.range' 1 (j - 1) ++ j :: List.range' (j + 1) (pdf.numPages - j) := by
      refine Eq.symm ?_
      calc List.range' 1 (j - 1) ++ j :: List.range' (j + 1) (pdf.numPages - j)
          = List.range' 1 (j - 1) ++ List.range' j (pdf.numPages - j + 1) := by
            rw [List.range'_succ]
        _ = List.range' 1 (j - 1)
              ++ List.range' (1 + (j - 1)) (pdf.numPages - (j - 1)) := by
            rw [e3, e2]
        _ = List.range' 1 (pdf.numPages - (j - 1) + (j - 1)) :=
            List.range'_append_1 1 (j - 1) (pdf.numPages - (j - 1))
        _ = List.range' 1 pdf.numPages := by rw [e1]
    rw [parsePdf, hdecomp]
    refine parsePdfGo_error pdf j e hj _ _ "" (fun i hi => ?_)
    have hmem := List.mem_range'_1.mp hi
    exact hok i hmem.1 (by omega)

theorem parsePdf_page_order_and_fail_fast_witness :
    parsePdf pdfDemoOk = Except.ok "a b\nc\n"
    ∧ parsePdf pdfDemoBad = Except.error "boom" := by
  constructor
  · exact parsePdf_page_order_and_fail_fast.1 pdfDemoOk
      (fun i => if i = 1 then ["a", "b"] else ["c"])
      (by intro i hi; fin_cases hi <;> rfl)
  · exact parsePdf_page_order_and_fail_fast.2 pdfDemoBad 2 "boom"
      (by decide) (by decide) rfl
      (fun i hi1 hi2 => ⟨["a"], by
        have hi : i = 1 := by omega
        rw [hi]; rfl⟩)

/-- The successful-transport branch of the handler: the user turn is
appended and the decoder runs over the delivered chunks. -/
theorem handleSendMessage_stream
    (pdfResult : Except String String) (resp : TransportResponse)
    (parse : JsonTextPath) (st : AppState) (pdfText : String)
    (hload : st.isLoading = false)
    (hval : ¬(jsTrim st.input = "" ∧ st.file = none))
    (hpdf : pdfStep st.file pdfResult = Except.ok pdfText)
    (hok : resp.ok = true) (hbody : resp.hasBody = true) :
    handleSendMessage pdfResult resp parse st
      = { st with
          messages := (runStream parse
            ⟨st.messages
              ++ [⟨st.nextId, Role.user, userContentOf st.input st.file⟩],
              st.nextId + 1, "", none⟩ resp.chunks).messages,
          input := "", file := none, error := none, isLoading := false,
          nextId := (runStream parse
            ⟨st.messages
              ++ [⟨st.nextId, Role.user, userContentOf st.input st.file⟩],
              st.nextId + 1, "", none⟩ resp.chunks).nextId } := by
  rw [handleSendMessage, if_neg ?hg]
  case hg =>
    rintro (hv | hl)
    · exact hval hv
    · rw [hload] at hl; cases hl
  simp only [hpdf]
  rw [if_neg (by simp [hok, hbody])]

theorem processLine_inv (parse : JsonTextPath) (base : List Message) (n : Nat)
    (hbase : ∀ m ∈ base, m.id < n) (line : String) (ds : DecodeState)
    (h : StorePrefixInv base n ds) :
    StorePrefixInv base n (processLine parse ds line) := by
  obtain ⟨⟨rest, hrest⟩, hnext, hmid⟩ := h
  cases hf : fragmentOfLine parse line with
  | none =>
    rw [processLine_of_none parse ds line hf]
    exact ⟨⟨rest, hrest⟩, hnext, hmid⟩
  | some t =>
    cases ham : ds.assistantMessageId with
    | none =>
      have hstep : processLine parse ds line
          = { ds with
              aiResponseContent := ds.aiResponseContent ++ t
              assistantMessageId := some ds.nextId
              nextId := ds.nextId + 1
              messages := ds.messages
                ++ [⟨ds.nextId, Role.assistant, ds.aiResponseContent ++ t⟩] } := by
        rw [processLine, hf, ham]
      rw [hstep]
      refine ⟨⟨rest
          ++ [⟨ds.nextId, Role.assistant, ds.aiResponseContent ++ t⟩], ?_⟩,
        by show n ≤ ds.nextId + 1; omega, ?_⟩
      · show ds.messages ++ _ = _
        rw [hrest, List.append_assoc]
      · intro mid hm
        simp only [Option.some.injEq] at hm
        omega
    | some mid0 =>
      have hm0 : n ≤ mid0 := hmid mid0 ham
      have hstep : processLine parse ds line
          = { ds with
              aiResponseContent := ds.aiResponseContent ++ t
              messages := ds.messages.map fun m =>
                if m.id = mid0
                then { m with content := ds.aiResponseContent ++ t } else m } := by
        rw [processLine, hf, ham]
      rw [hstep]
      refine ⟨⟨rest.map (fun m =>
          if m.id = mid0
          then { m with content := ds.aiResponseContent ++ t } else m), ?_⟩,
        hnext, ?_⟩
      · show ds.messages.map _ = _
        rw [hrest, List.map_append]
        congr 1
        rw [List.map_congr_left (g := id) ?_, List.map_id]
        intro m hm
        have hlt : m.id < mid0 := lt_of_lt_of_le (hbase m hm) hm0
        simp [Nat.ne_of_lt hlt]
      · intro mid hm
        exact hmid mid hm

theorem runLines_inv (parse : JsonTextPath) (base : List Message) (n : Nat)
    (hbase : ∀ m ∈ base, m.id < n) (lines : List String) :
    ∀ ds : DecodeState, StorePrefixInv base n ds →
      StorePrefixInv base n (lines.foldl (processLine parse) ds) := by
  induction lines with
  | nil => intro ds h; exact h
  | cons x t ih =>
    intro ds h
    rw [List.foldl_cons]
    exact ih _ (processLine_inv parse base n hbase x ds h)

theorem runStream_inv (parse : JsonTextPath) (base : List Message) (n : Nat)
    (hbase : ∀ m ∈ base, m.id < n) (chunks : List String) :
    ∀ ds : DecodeState, StorePrefixInv base n ds →
      StorePrefixInv base n (runStream parse ds chunks) := by
  induction chunks with
  | nil => intro ds h; exact h
  | cons c t ih =>
    intro ds h
    rw [runStream, List.foldl_cons]
    exact ih _ (runLines_inv parse base n hbase (jsSplitNl c) ds h)

/-- C9: an accepted submission with blank typed text but an attached
document appends a user turn whose content is the nonempty string "File
uploaded: " followed by the document name, while the dispatched request
text carries the extracted document text instead. -/
theorem upload_only_submission_nonempty_user_turn
    (pdfResult : Except String String) (resp : TransportResponse)
    (parse : JsonTextPath) (st : AppState) (f : FileAttachment)
    (pdfText : String)
    (hload : st.isLoading = false) (htrim : jsTrim st.input = "")
    (hfile : st.file = some f) (hpdf : pdfResult = Except.ok pdfText)
    (hids : ∀ m ∈ st.messages, m.id < st.nextId) :
    ((handleSendMessage pdfResult resp parse st).messages.take
        (st.messages.length + 1)
      = st.messages ++ [⟨st.nextId, Role.user, "File uploaded: " ++ f.name⟩])
    ∧ "File uploaded: " ++ f.name ≠ ""
    ∧ (pdfText ≠ "" → dispatchedPayload pdfResult st
        = some (chatHistory st.messages
            ("\n\n--- Content from " ++ f.name ++ " ---\n" ++ pdfText))) := by
  have hguard : ¬((jsTrim st.input = "" ∧ st.file = none)
      ∨ st.isLoading = true) := by
    rintro (⟨-, hn⟩ | hl)
    · rw [hfile] at hn; cases hn
    · rw [hload] at hl; cases hl
  have hval : ¬(jsTrim st.input = "" ∧ st.file = none) := by
    rintro ⟨-, hn⟩
    rw [hfile] at hn; cases hn
  have hps : pdfStep st.file pdfResult = Except.ok pdfText := by
    rw [hfile, hpdf]; rfl
  have hucontent : userContentOf st.input st.file
      = "File uploaded: " ++ f.name := by
    rw [userContentOf, if_pos htrim, hfile]; rfl
  refine ⟨?_, ?_, ?_⟩
  · by_cases hrb : resp.ok = false ∨ resp.hasBody = false
    · rw [handleSendMessage_transport_error pdfResult resp parse st pdfText
        hload hval hps hrb]
      show (st.messages ++ [_, _]).take _ = _
      rw [hucontent]
      rw [show st.messages
            ++ [(⟨st.nextId, Role.user, "File uploaded: " ++ f.name⟩ : Message),
                ⟨st.nextId + 1, Role.assistant,
                  "Sorry, something went wrong: " ++ apiErrorMessage resp⟩]
          = (st.messages
              ++ [⟨st.nextId, Role.user, "File uploaded: " ++ f.name⟩])
            ++ [⟨st.nextId + 1, Role.assistant,
                  "Sorry, something went wrong: " ++ apiErrorMessage resp⟩]
        from (List.append_assoc st.messages
          [⟨st.nextId, Role.user, "File uploaded: " ++ f.name⟩]
          [⟨st.nextId + 1, Role.assistant,
            "Sorry, something went wrong: " ++ apiErrorMessage resp⟩]).symm]
      exact List.take_left' (by simp)
    · have hok : resp.ok = true := by
        cases h : resp.ok
        · exact absurd (Or.inl h) hrb
        · rfl
      have hbody : resp.hasBody = true := by
        cases h : resp.hasBody
        · exact absurd (Or.inr h) hrb
        · rfl
      rw [handleSendMessage_stream pdfResult resp parse st pdfText hload hval
        hps hok hbody]
      have hbase : ∀ m ∈ st.messages
          ++ [⟨st.nextId, Role.user, userContentOf st.input st.file⟩],
          m.id < st.nextId + 1 := by
        intro m hm
        rcases List.mem_append.mp hm with hm1 | hm1
        · exact Nat.lt_succ_of_lt (hids m hm1)
        · rcases List.mem_singleton.mp hm1 with rfl
          exact Nat.lt_succ_self _
      have hinv := runStream_inv parse
        (st.messages
          ++ [⟨st.nextId, Role.user, userContentOf st.input st.file⟩])
        (st.nextId + 1) hbase resp.chunks
        ⟨st.messages
          ++ [⟨st.nextId, Role.user, userContentOf st.input st.file⟩],
          st.nextId + 1, "", none⟩
        ⟨⟨[], (List.append_nil _).symm⟩, Nat.le_refl _,
          fun _ h => Option.noConfusion h⟩
      obtain ⟨⟨rest, hrest⟩, -, -⟩ := hinv
      show (runStream parse _ resp.chunks).messages.take _ = _
      rw [hrest, hucontent]
      exact List.take_left' (by simp)
  · intro hcontra
    have hd := congrArg String.data hcontra
    rw [String.data_append] at hd
    exact absurd (List.append_eq_nil.mp hd).1 (by decide)
  · intro hpt
    rw [dispatchedPayload, if_neg hguard]
    simp only [hps]
    rw [apiRequestTextOf, if_neg hpt, htrim, hfile]
    rfl

theorem upload_only_submission_nonempty_user_turn_witness :
    ((handleSendMessage (Except.ok "PDF TEXT") ⟨true, 200, none, true, []⟩
        parseDemo ⟨[], "", some ⟨"doc.pdf"⟩, false, none, 0⟩).messages.take 1
      = [⟨0, Role.user, "File uploaded: doc.pdf"⟩])
    ∧ ("File uploaded: doc.pdf" : String) ≠ ""
    ∧ (("PDF TEXT" : String) ≠ "" →
        dispatchedPayload (Except.ok "PDF TEXT")
            ⟨[], "", some ⟨"doc.pdf"⟩, false, none, 0⟩
          = some (chatHistory []
              ("\n\n--- Content from doc.pdf ---\n" ++ "PDF TEXT"))) :=
  upload_only_submission_nonempty_user_turn (Except.ok "PDF TEXT")
    ⟨true, 200, none, true, []⟩ parseDemo
    ⟨[], "", some ⟨"doc.pdf"⟩, false, none, 0⟩ ⟨"doc.pdf"⟩ "PDF TEXT"
    rfl rfl rfl rfl (fun m hm => absurd hm (List.not_mem_nil m))

end Chatbot
